import Mathlib

/-!
Shallow embedding of `sd_webui_bayesian_merger/optimiser.py`.

The optimiser module drives one evaluation cycle per call to
`Optimiser.sd_target_function`: it increments the run-wide iteration counter,
classifies the iteration as warmup or optimisation, reads the proposed weight
vector out of the keyword-argument mapping, asks the merger collaborator to
merge, cleans up the previous iteration's checkpoint unless it was retained as
best, generates and scores images through the external collaborators, and
finally updates the best-tracking state when the aggregate score strictly
exceeds the incumbent best.

Modelling conventions:
* Python floats are modelled as rationals (`ℚ`); the claims under study are
  about comparisons and control flow, not float rounding.
* The external collaborators (merger, generator, scorer, prompter, artist) are
  modelled by an `Effect` trace recording each call with its arguments, plus
  oracles for the values they return: `avg_score` stands for the scalar the
  scorer computes from the generated images, and a `FailPoint` oracle says
  which collaborator call, if any, raises.  A raised exception is an
  `Except.error` carrying the mutated optimiser state at the moment of the
  raise, exactly as the Python object retains its mutations when an exception
  propagates out of the method.
* The keyword-argument dictionary `**params` is an association list from key
  strings to rationals; a missing key is a `KeyError`, modelled as
  `Except.error`.
* `NUM_TOTAL_BLOCKS` is imported by the source from the merger module, which
  is outside this file; every definition takes the block count `N` as an
  explicit parameter, so all theorems hold for any value of it.
* File writes are modelled by effects carrying the entire content written:
  `save_best_log` opens `best.log` in mode `"w"`, so each write replaces the
  file with exactly the returned string.
-/

/-- The configuration fields of `cfg` read by the optimiser module. -/
structure Config where
  init_points : Nat
  merge_mode : String
  save_best : Bool
  deriving DecidableEq

/-- `optimiser.py` line 36: `self.has_beta = self.cfg.merge_mode in ["sum_twice", "triple_sum"]`. -/
def has_beta (cfg : Config) : Bool :=
  ["sum_twice", "triple_sum"].contains cfg.merge_mode

/-- The mutable fields of the `Optimiser` instance that the claims concern:
`self.iteration`, `self.best_rolling_score` and `self._clean`. -/
structure OptimiserState where
  iteration : Nat
  best_rolling_score : ℚ
  _clean : Bool
  deriving DecidableEq

/-- The state `__post_init__` (lines 26, 34, 35) establishes:
`best_rolling_score = 0.0`, `iteration = 0`, `_clean = True`. -/
def post_init : OptimiserState :=
  { iteration := 0, best_rolling_score := 0, _clean := true }

/-- One call to an external collaborator, with the arguments the optimiser
passes. `saveBestLog` carries the full content written to `best.log`. -/
inductive Effect where
  | createModelOutName (iteration : Nat)
  | merge (weights_alpha : List ℚ) (weights_beta : Option (List ℚ))
      (base_alpha : ℚ) (base_beta : Option ℚ) (best : Bool)
  | removePreviousCkpt (iteration : Nat)
  | switchModel (iteration : Nat)
  | batchGenerate
  | batchScore (iteration : Nat)
  | saveBestLog (content : String)
  | keepBestCkpt
  | convergencePlot (scores : List ℚ) (minimise : Bool)
  | drawUnet (base : ℚ) (weights : List ℚ)
  deriving DecidableEq

/-- `Optimiser.cleanup` (lines 38–43): if `_clean`, remove the previous
checkpoint (called with the already-incremented `self.iteration`); otherwise
skip the removal once and reset `_clean` to `True`. -/
def cleanup (s : OptimiserState) : OptimiserState × List Effect :=
  if s._clean then (s, [Effect.removePreviousCkpt s.iteration])
  else ({ s with _clean := true }, [])

/-- Line 65: `it_type = "warmup" if self.iteration <= self.cfg.init_points
else "optimisation"`, evaluated after the increment. -/
def it_type (cfg : Config) (iteration : Nat) : String :=
  if iteration ≤ cfg.init_points then "warmup" else "optimisation"

/-- The `**params` keyword-argument dictionary. -/
abbrev Params := List (String × ℚ)

/-- Python dictionary access `params[k]`: `KeyError` when the key is absent. -/
def getParam (params : Params) (k : String) : Except String ℚ :=
  match List.lookup k params with
  | some v => Except.ok v
  | none => Except.error ("KeyError: " ++ k)

/-- The list comprehension `[params[f"block_{i}"] for i in indices]`, with an
optional key suffix (`""` for alpha, `"_beta"` for beta).  Keys are read left
to right and the first missing key raises. -/
def readBlocksAux (params : Params) (sfx : String) : List Nat → Except String (List ℚ)
  | [] => Except.ok []
  | i :: is =>
    match getParam params ("block_" ++ toString i ++ sfx) with
    | Except.error e => Except.error e
    | Except.ok v =>
      match readBlocksAux params sfx is with
      | Except.error e => Except.error e
      | Except.ok vs => Except.ok (v :: vs)

/-- Lines 68–75: read `weights_alpha`, `base_alpha`, and — iff `has_beta` —
`base_beta` and `weights_beta` (which are `None` otherwise). -/
def readWeights (N : Nat) (cfg : Config) (params : Params) :
    Except String (List ℚ × ℚ × Option ℚ × Option (List ℚ)) :=
  match readBlocksAux params "" (List.range N) with
  | Except.error e => Except.error e
  | Except.ok weights_alpha =>
    match getParam params "base_alpha" with
    | Except.error e => Except.error e
    | Except.ok base_alpha =>
      if has_beta cfg then
        match getParam params "base_beta" with
        | Except.error e => Except.error e
        | Except.ok base_beta =>
          match readBlocksAux params "_beta" (List.range N) with
          | Except.error e => Except.error e
          | Except.ok weights_beta =>
            Except.ok (weights_alpha, base_alpha, some base_beta, some weights_beta)
      else Except.ok (weights_alpha, base_alpha, none, none)

/-- Line 108: `weights_str = ",".join(list(map(str, weights_alpha)))`. -/
def weights_str (w : List ℚ) : String :=
  String.intercalate "," (w.map toString)

/-- Lines 111–117: the beta weight string is the comma join when `has_beta`
(the list is `some _` exactly then) and `""` otherwise. -/
def opt_weights_str : Option (List ℚ) → String
  | some w => weights_str w
  | none => ""

/-- `save_best_log` (lines 210–219): the file is opened in mode `"w"` (so the
returned string is the full new content of `best.log`), writes
`f"{alpha}\n\n{weights}"`, and appends `f"\n{beta}\n\n{weights_beta}"` only
when `beta` is truthy — Python truthiness makes both `None` and `0.0` skip the
beta section. -/
def save_best_log (alpha : ℚ) (weights : String) (beta : Option ℚ)
    (weights_beta : String) : String :=
  toString alpha ++ "\n\n" ++ weights ++
    (match beta with
     | none => ""
     | some b => if b = 0 then "" else "\n" ++ toString b ++ "\n\n" ++ weights_beta)

/-- Oracle for which external collaborator call raises during an evaluation
(`noFail` when the whole cycle succeeds). -/
inductive FailPoint where
  | mergeFail
  | generationFail
  | scoringFail
  | noFail
  deriving DecidableEq

/-- `Optimiser.sd_target_function` (lines 57–127).  In order: increment
`self.iteration`; classify the iteration; read the weight vector(s) from
`params` (a missing key raises `KeyError`); `create_model_out_name` and
`merge`; `cleanup`; switch the generator to the new model; generate and score
(the scorer's aggregate `avg_score` is an oracle input); and if `avg_score`
strictly exceeds `best_rolling_score`, record a new best: update the score,
write `best.log`, keep the checkpoint and set `_clean = False`.  The value
returned to the search strategy is `avg_score`, paired here with the `it_type`
tag for the phase-classification claims.  An error result carries the state as
mutated up to the point of the raise. -/
def sd_target_function (N : Nat) (cfg : Config) (fail : FailPoint)
    (avg_score : ℚ) (params : Params) (s : OptimiserState) :
    Except (OptimiserState × String) (OptimiserState × List Effect × ℚ × String) :=
  let s1 : OptimiserState := { s with iteration := s.iteration + 1 }
  let tag := it_type cfg s1.iteration
  match readWeights N cfg params with
  | Except.error e => Except.error (s1, e)
  | Except.ok (wA, bA, bB, wB) =>
    if fail = FailPoint.mergeFail then Except.error (s1, "merge raised")
    else
      let s2 := (cleanup s1).1
      if fail = FailPoint.generationFail then Except.error (s2, "generation raised")
      else if fail = FailPoint.scoringFail then Except.error (s2, "scoring raised")
      else
        let preEffs : List Effect :=
          Effect.createModelOutName s1.iteration ::
            Effect.merge wA wB bA bB false ::
            (cleanup s1).2 ++
              [Effect.switchModel s1.iteration, Effect.batchGenerate,
                Effect.batchScore s1.iteration]
        if avg_score > s2.best_rolling_score then
          Except.ok
            ({ s2 with best_rolling_score := avg_score, _clean := false },
              preEffs ++
                [Effect.saveBestLog
                    (save_best_log bA (weights_str wA) bB (opt_weights_str wB)),
                  Effect.keepBestCkpt],
              avg_score, tag)
        else Except.ok (s2, preEffs, avg_score, tag)

/-- `Optimiser.plot_and_save` (lines 137–207): draw the convergence plot,
rewrite `best.log` from the recorded best values, draw the unet diagram(s),
and — when `cfg.save_best` — re-run the merge with the best weights and
`best=True`.  The method reads `self.has_beta` and `self.log_name` but never
mutates the optimiser state, which is threaded through unchanged.  The source
annotates `best_base_beta : float` and `best_weights_beta : List[float]`; the
single-axis callers live outside this module. -/
def plot_and_save (cfg : Config) (scores : List ℚ) (best_base_alpha : ℚ)
    (best_weights_alpha : List ℚ) (best_base_beta : ℚ)
    (best_weights_beta : List ℚ) (minimise : Bool) (s : OptimiserState) :
    OptimiserState × List Effect :=
  let best_weights_str := weights_str best_weights_alpha
  let best_weights_str_beta :=
    if has_beta cfg then weights_str best_weights_beta else ""
  (s,
    [Effect.convergencePlot scores minimise,
      Effect.saveBestLog
        (save_best_log best_base_alpha best_weights_str (some best_base_beta)
          best_weights_str_beta),
      Effect.drawUnet best_base_alpha best_weights_alpha] ++
      (if has_beta cfg then [Effect.drawUnet best_base_beta best_weights_beta]
       else []) ++
      (if cfg.save_best then
        [Effect.merge best_weights_alpha (some best_weights_beta)
            best_base_alpha (some best_base_beta) true]
       else []))

/-- `load_log` (lines 222–233): iterate the open file line by line; `next`
past the last line raises `StopIteration`, which is caught and breaks the
loop; each line is passed to `json.loads`, whose exception on a malformed
line is *not* caught and propagates.  The parser for a single line is a
parameter standing for the external `json` module. -/
def load_log {J : Type} (json_loads : String → Except String J) :
    List String → Except String (List J)
  | [] => Except.ok []
  | l :: ls =>
    match json_loads l with
    | Except.error e => Except.error e
    | Except.ok it =>
      match load_log json_loads ls with
      | Except.error e => Except.error e
      | Except.ok its => Except.ok (it :: its)

/-- The opening brace character. -/
def lbrace : Char := Char.ofNat 123

/-- The closing brace character. -/
def rbrace : Char := Char.ofNat 125

/-- A minimal stand-in for `json.loads` on one line of the run log, adequate
for distinguishing a complete single-line JSON object from a truncated
trailing partial line: the line must open and close its braces.  A rejected
line raises, as `json.loads` does. -/
def json_loads_model (s : String) : Except String String :=
  if s.data.head? = some lbrace ∧ s.data.getLast? = some rbrace then Except.ok s
  else Except.error "JSONDecodeError"

/-- The inputs of one evaluation call: the failure oracle, the scorer's
aggregate score, and the proposed parameter dictionary. -/
structure EvalInput where
  fail : FailPoint
  avg_score : ℚ
  params : Params

/-- The optimiser state after one call to `sd_target_function`, whether it
returns or raises (the Python object keeps its mutations either way). -/
def run_eval (N : Nat) (cfg : Config) (inp : EvalInput) (s : OptimiserState) :
    OptimiserState :=
  match sd_target_function N cfg inp.fail inp.avg_score inp.params s with
  | Except.ok (s', _, _, _) => s'
  | Except.error (s', _) => s'

/-- The optimiser state after a sequence of evaluation calls on one instance. -/
def run_evals (N : Nat) (cfg : Config) : List EvalInput → OptimiserState → OptimiserState
  | [], s => s
  | inp :: rest, s => run_evals N cfg rest (run_eval N cfg inp s)

/-- Decidable equality of `Except` results, for evaluating the embedding on
concrete inputs. -/
instance {ε α : Type} [DecidableEq ε] [DecidableEq α] : DecidableEq (Except ε α)
  | Except.error a, Except.error b =>
    if h : a = b then Decidable.isTrue (by rw [h])
    else Decidable.isFalse (by intro hc; cases hc; exact h rfl)
  | Except.error _, Except.ok _ => Decidable.isFalse (by intro hc; cases hc)
  | Except.ok _, Except.error _ => Decidable.isFalse (by intro hc; cases hc)
  | Except.ok a, Except.ok b =>
    if h : a = b then Decidable.isTrue (by rw [h])
    else Decidable.isFalse (by intro hc; cases hc; exact h rfl)

/-- Whether an `Except` result is a normal return. -/
def is_ok {ε α : Type} : Except ε α → Bool
  | Except.ok _ => true
  | Except.error _ => false

/-- The contents of the `best.log` writes in an effect trace, in order. -/
def saved_best_logs : List Effect → List String
  | [] => []
  | Effect.saveBestLog c :: es => c :: saved_best_logs es
  | _ :: es => saved_best_logs es

/-- The effect trace of one evaluation call (empty when the call raises). -/
def eval_effects (N : Nat) (cfg : Config) (fail : FailPoint) (avg_score : ℚ)
    (params : Params) (s : OptimiserState) : List Effect :=
  match sd_target_function N cfg fail avg_score params s with
  | Except.ok (_, effs, _, _) => effs
  | Except.error _ => []

/-- A single-axis configuration, used to evaluate the embedding on concrete
inputs. -/
def cfgA : Config := { init_points := 2, merge_mode := "weighted_sum", save_best := true }

/-- A two-axis configuration (`sum_twice`), used to evaluate the embedding on
concrete inputs. -/
def cfgB : Config := { init_points := 2, merge_mode := "sum_twice", save_best := true }

/-- A concrete parameter dictionary holding exactly the alpha schema for one
block. -/
def pA : Params := [("block_0", 2), ("base_alpha", 3)]

/-- The alpha schema extended with beta fields (nonzero base beta). -/
def pB : Params := pA ++ [("base_beta", 5), ("block_0_beta", 7)]

/-- The alpha schema extended with beta fields whose base beta is `0.0`. -/
def pB0 : Params := pA ++ [("base_beta", 0), ("block_0_beta", 7)]

/-! ### Helper lemmas about `cleanup` -/

theorem cleanup_fst (s : OptimiserState) :
    (cleanup s).1 =
      { iteration := s.iteration, best_rolling_score := s.best_rolling_score,
        _clean := true } := by
  unfold cleanup
  split
  · next h =>
    cases s with
    | mk i b c => simp only at h; subst h; rfl
  · rfl

theorem cleanup_snd (s : OptimiserState) :
    (cleanup s).2 =
      if s._clean = true then [Effect.removePreviousCkpt s.iteration] else [] := by
  unfold cleanup
  split <;> simp_all

theorem cleanup_of_clean {s : OptimiserState} (h : s._clean = true) :
    cleanup s = (s, [Effect.removePreviousCkpt s.iteration]) := by
  simp [cleanup, h]

theorem cleanup_of_not_clean {s : OptimiserState} (h : s._clean = false) :
    cleanup s = ({ s with _clean := true }, []) := by
  simp [cleanup, h]

/-! ### Symbolic evaluation of `sd_target_function` -/

theorem sd_eval_readWeights_error {N : Nat} {cfg : Config} {fail : FailPoint}
    {avg : ℚ} {params : Params} {s : OptimiserState} {e : String}
    (hre : readWeights N cfg params = Except.error e) :
    sd_target_function N cfg fail avg params s =
      Except.error ({ s with iteration := s.iteration + 1 }, e) := by
  simp only [sd_target_function]
  rw [hre]

theorem sd_eval_mergeFail {N : Nat} {cfg : Config} {avg : ℚ} {params : Params}
    {s : OptimiserState} {wA : List ℚ} {bA : ℚ} {bB : Option ℚ} {wB : Option (List ℚ)}
    (hre : readWeights N cfg params = Except.ok (wA, bA, bB, wB)) :
    sd_target_function N cfg FailPoint.mergeFail avg params s =
      Except.error ({ s with iteration := s.iteration + 1 }, "merge raised") := by
  simp only [sd_target_function]
  rw [hre]
  simp

theorem sd_eval_generationFail {N : Nat} {cfg : Config} {avg : ℚ} {params : Params}
    {s : OptimiserState} {wA : List ℚ} {bA : ℚ} {bB : Option ℚ} {wB : Option (List ℚ)}
    (hre : readWeights N cfg params = Except.ok (wA, bA, bB, wB)) :
    sd_target_function N cfg FailPoint.generationFail avg params s =
      Except.error
        ({ iteration := s.iteration + 1,
           best_rolling_score := s.best_rolling_score, _clean := true },
          "generation raised") := by
  simp only [sd_target_function]
  rw [hre]
  simp [cleanup_fst]

theorem sd_eval_scoringFail {N : Nat} {cfg : Config} {avg : ℚ} {params : Params}
    {s : OptimiserState} {wA : List ℚ} {bA : ℚ} {bB : Option ℚ} {wB : Option (List ℚ)}
    (hre : readWeights N cfg params = Except.ok (wA, bA, bB, wB)) :
    sd_target_function N cfg FailPoint.scoringFail avg params s =
      Except.error
        ({ iteration := s.iteration + 1,
           best_rolling_score := s.best_rolling_score, _clean := true },
          "scoring raised") := by
  simp only [sd_target_function]
  rw [hre]
  simp [cleanup_fst]

theorem sd_eval_noFail {N : Nat} {cfg : Config} {avg : ℚ} {params : Params}
    {s : OptimiserState} {wA : List ℚ} {bA : ℚ} {bB : Option ℚ} {wB : Option (List ℚ)}
    (hre : readWeights N cfg params = Except.ok (wA, bA, bB, wB)) :
    sd_target_function N cfg FailPoint.noFail avg params s =
      (if avg > s.best_rolling_score then
        Except.ok
          ({ iteration := s.iteration + 1, best_rolling_score := avg, _clean := false },
            Effect.createModelOutName (s.iteration + 1) ::
              Effect.merge wA wB bA bB false ::
                ((if s._clean = true then [Effect.removePreviousCkpt (s.iteration + 1)]
                  else []) ++
                  [Effect.switchModel (s.iteration + 1), Effect.batchGenerate,
                    Effect.batchScore (s.iteration + 1),
                    Effect.saveBestLog
                      (save_best_log bA (weights_str wA) bB (opt_weights_str wB)),
                    Effect.keepBestCkpt]),
            avg, it_type cfg (s.iteration + 1))
      else
        Except.ok
          ({ iteration := s.iteration + 1,
             best_rolling_score := s.best_rolling_score, _clean := true },
            Effect.createModelOutName (s.iteration + 1) ::
              Effect.merge wA wB bA bB false ::
                ((if s._clean = true then [Effect.removePreviousCkpt (s.iteration + 1)]
                  else []) ++
                  [Effect.switchModel (s.iteration + 1), Effect.batchGenerate,
                    Effect.batchScore (s.iteration + 1)]),
            avg, it_type cfg (s.iteration + 1))) := by
  simp only [sd_target_function]
  rw [hre]
  simp only [cleanup_fst, cleanup_snd]
  split <;> split <;> simp_all

/-! ### Key lookup lemmas -/

theorem getParam_ok {params : Params} {k : String} {v : ℚ}
    (h : getParam params k = Except.ok v) : List.lookup k params = some v := by
  unfold getParam at h
  rcases hl : List.lookup k params with _ | v'
  · rw [hl] at h; cases h
  · rw [hl] at h; cases h; rfl

theorem getParam_of_some {params : Params} {k : String} {v : ℚ}
    (h : List.lookup k params = some v) : getParam params k = Except.ok v := by
  unfold getParam
  rw [h]

theorem getParam_of_none {params : Params} {k : String}
    (h : List.lookup k params = none) :
    getParam params k = Except.error ("KeyError: " ++ k) := by
  unfold getParam
  rw [h]

theorem readBlocksAux_ok_lookup {params : Params} {sfx : String} :
    ∀ {is : List Nat} {vs : List ℚ}, readBlocksAux params sfx is = Except.ok vs →
      ∀ i ∈ is, ∃ v, List.lookup ("block_" ++ toString i ++ sfx) params = some v := by
  intro is
  induction is with
  | nil => intro vs _ i hi; cases hi
  | cons j js ih =>
    intro vs h i hi
    unfold readBlocksAux at h
    rcases hg : getParam params ("block_" ++ toString j ++ sfx) with e | v
    · rw [hg] at h; cases h
    · rw [hg] at h
      rcases hr : readBlocksAux params sfx js with e | vs'
      · rw [hr] at h; cases h
      · rw [hr] at h
        rcases List.mem_cons.mp hi with rfl | hmem
        · exact ⟨v, getParam_ok hg⟩
        · exact ih hr i hmem

theorem readBlocksAux_error_of_missing {params : Params} {sfx : String} {i : Nat} :
    ∀ {is : List Nat}, i ∈ is →
      List.lookup ("block_" ++ toString i ++ sfx) params = none →
      ∃ e, readBlocksAux params sfx is = Except.error e := by
  intro is
  induction is with
  | nil => intro hi; cases hi
  | cons j js ih =>
    intro hi hnone
    rcases hg : getParam params ("block_" ++ toString j ++ sfx) with e | v
    · exact ⟨e, by unfold readBlocksAux; rw [hg]⟩
    · rcases List.mem_cons.mp hi with rfl | hmem
      · rw [getParam_of_none hnone] at hg; cases hg
      · rcases ih hmem hnone with ⟨e, hr⟩
        exact ⟨e, by unfold readBlocksAux; rw [hg, hr]⟩

theorem readBlocksAux_ok_of_all {params : Params} {sfx : String} :
    ∀ {is : List Nat},
      (∀ i ∈ is, ∃ v, List.lookup ("block_" ++ toString i ++ sfx) params = some v) →
      ∃ vs, readBlocksAux params sfx is = Except.ok vs := by
  intro is
  induction is with
  | nil => intro _; exact ⟨[], rfl⟩
  | cons j js ih =>
    intro hall
    rcases hall j (List.mem_cons_self j js) with ⟨v, hv⟩
    rcases ih (fun i hi => hall i (List.mem_cons_of_mem j hi)) with ⟨vs, hvs⟩
    exact ⟨v :: vs, by unfold readBlocksAux; rw [getParam_of_some hv, hvs]⟩

theorem readBlocksAux_congr {params params2 : Params} {sfx : String} :
    ∀ {is : List Nat},
      (∀ i ∈ is,
        List.lookup ("block_" ++ toString i ++ sfx) params =
          List.lookup ("block_" ++ toString i ++ sfx) params2) →
      readBlocksAux params sfx is = readBlocksAux params2 sfx is := by
  intro is
  induction is with
  | nil => intro _; rfl
  | cons j js ih =>
    intro hall
    unfold readBlocksAux
    rw [ih (fun i hi => hall i (List.mem_cons_of_mem j hi))]
    have hj : getParam params ("block_" ++ toString j ++ sfx) =
        getParam params2 ("block_" ++ toString j ++ sfx) := by
      unfold getParam
      rw [hall j (List.mem_cons_self j js)]
    rw [hj]

/-! ### Lemmas about `readWeights` -/

theorem readWeights_ok_beta_flag {N : Nat} {cfg : Config} {params : Params}
    {wA : List ℚ} {bA : ℚ} {bB : Option ℚ} {wB : Option (List ℚ)}
    (h : readWeights N cfg params = Except.ok (wA, bA, bB, wB)) :
    bB.isSome = has_beta cfg ∧ wB.isSome = has_beta cfg := by
  unfold readWeights at h
  rcases h1 : readBlocksAux params "" (List.range N) with e | vsA
  · rw [h1] at h; cases h
  · rw [h1] at h
    rcases h2 : getParam params "base_alpha" with e | vA
    · rw [h2] at h; cases h
    · rw [h2] at h
      rcases hb : has_beta cfg with _ | _
      · rw [hb] at h
        simp only [Bool.false_eq_true, if_neg, ite_false] at h
        cases h
        exact ⟨rfl, rfl⟩
      · rw [hb] at h
        simp only [ite_true] at h
        rcases h3 : getParam params "base_beta" with e | vB
        · rw [h3] at h; cases h
        · rw [h3] at h
          rcases h4 : readBlocksAux params "_beta" (List.range N) with e | vsB
          · rw [h4] at h; cases h
          · rw [h4] at h
            cases h
            exact ⟨rfl, rfl⟩

theorem readWeights_ok_beta_keys {N : Nat} {cfg : Config} {params : Params}
    {wA : List ℚ} {bA : ℚ} {bB : Option ℚ} {wB : Option (List ℚ)}
    (h : readWeights N cfg params = Except.ok (wA, bA, bB, wB))
    (hb : has_beta cfg = true) :
    (∃ v, List.lookup "base_beta" params = some v) ∧
      ∀ i, i < N → ∃ v, List.lookup ("block_" ++ toString i ++ "_beta") params = some v := by
  unfold readWeights at h
  rcases h1 : readBlocksAux params "" (List.range N) with e | vsA
  · rw [h1] at h; cases h
  · rw [h1] at h
    rcases h2 : getParam params "base_alpha" with e | vA
    · rw [h2] at h; cases h
    · rw [h2] at h
      rw [hb] at h
      simp only [ite_true] at h
      rcases h3 : getParam params "base_beta" with e | vB
      · rw [h3] at h; cases h
      · rw [h3] at h
        rcases h4 : readBlocksAux params "_beta" (List.range N) with e | vsB
        · rw [h4] at h; cases h
        · refine ⟨⟨vB, getParam_ok h3⟩, fun i hi => ?_⟩
          exact readBlocksAux_ok_lookup h4 i (List.mem_range.mpr hi)

theorem readWeights_error_of_missing_beta {N : Nat} {cfg : Config} {params : Params}
    (hb : has_beta cfg = true)
    (hm : List.lookup "base_beta" params = none ∨
      ∃ i, i < N ∧ List.lookup ("block_" ++ toString i ++ "_beta") params = none) :
    ∃ e, readWeights N cfg params = Except.error e := by
  unfold readWeights
  rcases h1 : readBlocksAux params "" (List.range N) with e | vsA
  · exact ⟨e, rfl⟩
  · rcases h2 : getParam params "base_alpha" with e | vA
    · exact ⟨e, rfl⟩
    · rw [hb]
      simp only [ite_true]
      rcases hm with hnone | ⟨i, hi, hnone⟩
      · rw [getParam_of_none hnone]
        exact ⟨"KeyError: " ++ "base_beta", rfl⟩
      · rcases h3 : getParam params "base_beta" with e | vB
        · exact ⟨e, rfl⟩
        · rcases readBlocksAux_error_of_missing (List.mem_range.mpr hi) hnone with ⟨e, h4⟩
          rw [h4]
          exact ⟨e, rfl⟩

theorem readWeights_ok_single_axis {N : Nat} {cfg : Config} {params : Params}
    (hb : has_beta cfg = false)
    (ha : ∃ a, List.lookup "base_alpha" params = some a)
    (hblocks : ∀ i, i < N → ∃ v, List.lookup ("block_" ++ toString i) params = some v) :
    ∃ wA bA, readWeights N cfg params = Except.ok (wA, bA, none, none) := by
  have hblocks' : ∀ i ∈ List.range N,
      ∃ v, List.lookup ("block_" ++ toString i ++ "") params = some v := by
    intro i hi
    rcases hblocks i (List.mem_range.mp hi) with ⟨v, hv⟩
    exact ⟨v, by simpa using hv⟩
  rcases readBlocksAux_ok_of_all hblocks' with ⟨vs, hvs⟩
  rcases ha with ⟨a, ha⟩
  refine ⟨vs, a, ?_⟩
  unfold readWeights
  rw [hvs, getParam_of_some ha, hb]
  simp

theorem readWeights_single_axis_congr {N : Nat} {cfg : Config} {params params2 : Params}
    (hb : has_beta cfg = false)
    (ha : List.lookup "base_alpha" params = List.lookup "base_alpha" params2)
    (hbl : ∀ i, i < N →
      List.lookup ("block_" ++ toString i) params =
        List.lookup ("block_" ++ toString i) params2) :
    readWeights N cfg params = readWeights N cfg params2 := by
  have hbl' : ∀ i ∈ List.range N,
      List.lookup ("block_" ++ toString i ++ "") params =
        List.lookup ("block_" ++ toString i ++ "") params2 := by
    intro i hi
    simpa using hbl i (List.mem_range.mp hi)
  unfold readWeights
  rw [readBlocksAux_congr hbl', hb]
  have hga : getParam params "base_alpha" = getParam params2 "base_alpha" := by
    unfold getParam
    rw [ha]
  rw [hga]
  simp

theorem sd_congr_params {N : Nat} {cfg : Config} {fail : FailPoint} {avg : ℚ}
    {params params2 : Params} {s : OptimiserState}
    (h : readWeights N cfg params = readWeights N cfg params2) :
    sd_target_function N cfg fail avg params s =
      sd_target_function N cfg fail avg params2 s := by
  simp only [sd_target_function]
  rw [h]

/-! ### Shape of the result of one evaluation -/

theorem sd_error_spec {N : Nat} {cfg : Config} {fail : FailPoint} {avg : ℚ}
    {params : Params} {s s' : OptimiserState} {msg : String}
    (h : sd_target_function N cfg fail avg params s = Except.error (s', msg)) :
    s'.iteration = s.iteration + 1 ∧
      s'.best_rolling_score = s.best_rolling_score := by
  rcases hre : readWeights N cfg params with e | ⟨wA, bA, bB, wB⟩
  · rw [sd_eval_readWeights_error hre] at h
    simp only [Except.error.injEq, Prod.mk.injEq] at h
    rcases h with ⟨h1, -⟩
    subst h1
    exact ⟨rfl, rfl⟩
  · cases fail with
    | mergeFail =>
      rw [sd_eval_mergeFail hre] at h
      simp only [Except.error.injEq, Prod.mk.injEq] at h
      rcases h with ⟨h1, -⟩
      subst h1
      exact ⟨rfl, rfl⟩
    | generationFail =>
      rw [sd_eval_generationFail hre] at h
      simp only [Except.error.injEq, Prod.mk.injEq] at h
      rcases h with ⟨h1, -⟩
      subst h1
      exact ⟨rfl, rfl⟩
    | scoringFail =>
      rw [sd_eval_scoringFail hre] at h
      simp only [Except.error.injEq, Prod.mk.injEq] at h
      rcases h with ⟨h1, -⟩
      subst h1
      exact ⟨rfl, rfl⟩
    | noFail =>
      rw [sd_eval_noFail hre] at h
      split at h <;> simp at h

theorem sd_ok_spec {N : Nat} {cfg : Config} {fail : FailPoint} {avg : ℚ}
    {params : Params} {s s' : OptimiserState} {effs : List Effect} {v : ℚ} {tag : String}
    (h : sd_target_function N cfg fail avg params s = Except.ok (s', effs, v, tag)) :
    ∃ wA bA bB wB, readWeights N cfg params = Except.ok (wA, bA, bB, wB) ∧
      v = avg ∧ tag = it_type cfg (s.iteration + 1) ∧ s'.iteration = s.iteration + 1 ∧
      ((avg > s.best_rolling_score ∧ s'.best_rolling_score = avg ∧ s'._clean = false ∧
          effs = Effect.createModelOutName (s.iteration + 1) ::
              Effect.merge wA wB bA bB false ::
                ((if s._clean = true then [Effect.removePreviousCkpt (s.iteration + 1)]
                  else []) ++
                  [Effect.switchModel (s.iteration + 1), Effect.batchGenerate,
                    Effect.batchScore (s.iteration + 1),
                    Effect.saveBestLog
                      (save_best_log bA (weights_str wA) bB (opt_weights_str wB)),
                    Effect.keepBestCkpt])) ∨
        (¬ avg > s.best_rolling_score ∧
          s'.best_rolling_score = s.best_rolling_score ∧ s'._clean = true ∧
          effs = Effect.createModelOutName (s.iteration + 1) ::
              Effect.merge wA wB bA bB false ::
                ((if s._clean = true then [Effect.removePreviousCkpt (s.iteration + 1)]
                  else []) ++
                  [Effect.switchModel (s.iteration + 1), Effect.batchGenerate,
                    Effect.batchScore (s.iteration + 1)]))) := by
  rcases hre : readWeights N cfg params with e | ⟨wA, bA, bB, wB⟩
  · rw [sd_eval_readWeights_error hre] at h
    simp at h
  · cases fail with
    | mergeFail => rw [sd_eval_mergeFail hre] at h; simp at h
    | generationFail => rw [sd_eval_generationFail hre] at h; simp at h
    | scoringFail => rw [sd_eval_scoringFail hre] at h; simp at h
    | noFail =>
      rw [sd_eval_noFail hre] at h
      refine ⟨wA, bA, bB, wB, rfl, ?_⟩
      by_cases hgt : avg > s.best_rolling_score
      · rw [if_pos hgt] at h
        simp only [Except.ok.injEq, Prod.mk.injEq] at h
        rcases h with ⟨h1, h2, h3, h4⟩
        subst h1; subst h2; subst h3; subst h4
        exact ⟨rfl, rfl, rfl, Or.inl ⟨hgt, rfl, rfl, rfl⟩⟩
      · rw [if_neg hgt] at h
        simp only [Except.ok.injEq, Prod.mk.injEq] at h
        rcases h with ⟨h1, h2, h3, h4⟩
        subst h1; subst h2; subst h3; subst h4
        exact ⟨rfl, rfl, rfl, Or.inr ⟨hgt, rfl, rfl, rfl⟩⟩

/-! ### Monotonicity helpers -/

theorem run_eval_best_mono (N : Nat) (cfg : Config) (inp : EvalInput) (s : OptimiserState) :
    s.best_rolling_score ≤ (run_eval N cfg inp s).best_rolling_score := by
  unfold run_eval
  rcases hres : sd_target_function N cfg inp.fail inp.avg_score inp.params s with
    ⟨s', msg⟩ | ⟨s', effs, v, tag⟩
  · show s.best_rolling_score ≤ s'.best_rolling_score
    rcases sd_error_spec hres with ⟨-, hbest⟩
    rw [hbest]
  · show s.best_rolling_score ≤ s'.best_rolling_score
    rcases sd_ok_spec hres with ⟨wA, bA, bB, wB, -, -, -, -, hdisj⟩
    rcases hdisj with ⟨hgt, hbest, -, -⟩ | ⟨-, hbest, -, -⟩
    · rw [hbest]
      exact le_of_lt hgt
    · rw [hbest]

theorem run_evals_best_mono (N : Nat) (cfg : Config) :
    ∀ (inputs : List EvalInput) (s : OptimiserState),
      s.best_rolling_score ≤ (run_evals N cfg inputs s).best_rolling_score := by
  intro inputs
  induction inputs with
  | nil => intro s; exact le_refl _
  | cons inp rest ih =>
    intro s
    exact le_trans (run_eval_best_mono N cfg inp s) (ih (run_eval N cfg inp s))

/-! ### Claims -/

/-- C1: in every call to `sd_target_function`, a new best is recorded (best
score updated to the aggregate score, `best.log` written, the checkpoint
retained and `_clean` set to `False`) if and only if the aggregate score is
strictly greater than the best score recorded so far; on a tie or a lower
score the incumbent best is kept and no best-update side effect happens. -/
theorem sd_target_function_new_best_iff {N : Nat} {cfg : Config} {avg : ℚ}
    {params : Params} {s s' : OptimiserState} {effs : List Effect} {v : ℚ} {tag : String}
    (h : sd_target_function N cfg FailPoint.noFail avg params s =
      Except.ok (s', effs, v, tag)) :
    ((avg > s.best_rolling_score) ↔
      ((∃ c, Effect.saveBestLog c ∈ effs) ∧ Effect.keepBestCkpt ∈ effs ∧
        s'.best_rolling_score = avg ∧ s'._clean = false)) ∧
    (¬ avg > s.best_rolling_score →
      s'.best_rolling_score = s.best_rolling_score ∧
      (∀ c, Effect.saveBestLog c ∉ effs) ∧ Effect.keepBestCkpt ∉ effs) := by
  rcases sd_ok_spec h with ⟨wA, bA, bB, wB, -, -, -, -, hdisj⟩
  rcases hdisj with ⟨hgt, hbest, hclean, heffs⟩ | ⟨hgt, hbest, hclean, heffs⟩
  · refine ⟨⟨fun _ => ?_, fun _ => hgt⟩, fun hn => absurd hgt hn⟩
    refine ⟨⟨save_best_log bA (weights_str wA) bB (opt_weights_str wB), ?_⟩, ?_, hbest, hclean⟩
    · rw [heffs]; by_cases hscl : s._clean = true <;> simp [hscl]
    · rw [heffs]; by_cases hscl : s._clean = true <;> simp [hscl]
  · refine ⟨⟨fun hgt2 => absurd hgt2 hgt, ?_⟩, fun _ => ⟨hbest, ?_, ?_⟩⟩
    · rintro ⟨-, -, -, hcl⟩
      rw [hclean] at hcl
      cases hcl
    · intro c hc
      rw [heffs] at hc
      by_cases hscl : s._clean = true <;> simp [hscl] at hc
    · intro hc
      rw [heffs] at hc
      by_cases hscl : s._clean = true <;> simp [hscl] at hc

/-- C1 witness: a concrete first evaluation with aggregate score `1 > 0`
records a new best, and the theorem's equivalence holds there. -/
theorem sd_target_function_new_best_iff_witness :
    ((1 : ℚ) > post_init.best_rolling_score) ↔
      ((∃ c, Effect.saveBestLog c ∈ eval_effects 1 cfgA FailPoint.noFail 1 pA post_init) ∧
        Effect.keepBestCkpt ∈ eval_effects 1 cfgA FailPoint.noFail 1 pA post_init ∧
        ({ iteration := 1, best_rolling_score := 1, _clean := false } :
            OptimiserState).best_rolling_score = 1 ∧
        ({ iteration := 1, best_rolling_score := 1, _clean := false } :
            OptimiserState)._clean = false) :=
  (@sd_target_function_new_best_iff 1 cfgA 1 pA post_init
    { iteration := 1, best_rolling_score := 1, _clean := false }
    (eval_effects 1 cfgA FailPoint.noFail 1 pA post_init) 1 "warmup" (by decide)).1

/-- C2: over any sequence of evaluation calls on one optimiser instance —
whether each call returns or raises — `best_rolling_score` never decreases:
each single call, and hence any sequence of calls, leaves it greater than or
equal to its previous value. -/
theorem best_rolling_score_monotone (N : Nat) (cfg : Config) (inp : EvalInput)
    (inputs : List EvalInput) (s : OptimiserState) :
    s.best_rolling_score ≤ (run_eval N cfg inp s).best_rolling_score ∧
    s.best_rolling_score ≤ (run_evals N cfg inputs s).best_rolling_score :=
  ⟨run_eval_best_mono N cfg inp s, run_evals_best_mono N cfg inputs s⟩

/-- C3: the checkpoint retention state machine.  In a successful evaluation:
a new best moves the flag to retained (`_clean = False`); with no new best the
flag ends reset (`_clean = True`); when the evaluation starts in the retained
state its cleanup step skips deletion (no `remove_previous_ckpt` call at all);
and when it starts in the clean state, cleanup deletes the previous
iteration's artifact. -/
theorem checkpoint_retention_state_machine {N : Nat} {cfg : Config} {avg : ℚ}
    {params : Params} {s s' : OptimiserState} {effs : List Effect} {v : ℚ} {tag : String}
    (h : sd_target_function N cfg FailPoint.noFail avg params s =
      Except.ok (s', effs, v, tag)) :
    (avg > s.best_rolling_score → s'._clean = false) ∧
    (¬ avg > s.best_rolling_score → s'._clean = true) ∧
    (s._clean = false → ∀ j, Effect.removePreviousCkpt j ∉ effs) ∧
    (s._clean = true → Effect.removePreviousCkpt (s.iteration + 1) ∈ effs) := by
  rcases sd_ok_spec h with ⟨wA, bA, bB, wB, -, -, -, -, hdisj⟩
  rcases hdisj with ⟨hgt, hbest, hclean, heffs⟩ | ⟨hgt, hbest, hclean, heffs⟩
  · refine ⟨fun _ => hclean, fun hn => absurd hgt hn, fun hscl j hj => ?_, fun hscl => ?_⟩
    · rw [heffs] at hj
      have hscl' : ¬ s._clean = true := by rw [hscl]; simp
      simp [hscl'] at hj
    · rw [heffs]
      simp [hscl]
  · refine ⟨fun hgt2 => absurd hgt2 hgt, fun _ => hclean, fun hscl j hj => ?_, fun hscl => ?_⟩
    · rw [heffs] at hj
      have hscl' : ¬ s._clean = true := by rw [hscl]; simp
      simp [hscl'] at hj
    · rw [heffs]
      simp [hscl]

/-- C3 witness: a concrete first evaluation (which starts in the clean state
and finds a new best) satisfies all four conjuncts of the state machine. -/
theorem checkpoint_retention_state_machine_witness :
    ((1 : ℚ) > post_init.best_rolling_score →
      ({ iteration := 1, best_rolling_score := 1, _clean := false } :
          OptimiserState)._clean = false) ∧
    (post_init._clean = true →
      Effect.removePreviousCkpt (post_init.iteration + 1) ∈
        eval_effects 1 cfgA FailPoint.noFail 1 pA post_init) :=
  ⟨(@checkpoint_retention_state_machine 1 cfgA 1 pA post_init
      { iteration := 1, best_rolling_score := 1, _clean := false }
      (eval_effects 1 cfgA FailPoint.noFail 1 pA post_init) 1 "warmup" (by decide)).1,
    (@checkpoint_retention_state_machine 1 cfgA 1 pA post_init
      { iteration := 1, best_rolling_score := 1, _clean := false }
      (eval_effects 1 cfgA FailPoint.noFail 1 pA post_init) 1 "warmup" (by decide)).2.2.2⟩

/-- C6: every call increments the run-wide iteration counter by exactly one
before classification, and the iteration is tagged `"warmup"` exactly when the
incremented counter is at most `init_points`, `"optimisation"` otherwise. -/
theorem iteration_phase_classification {N : Nat} {cfg : Config} {avg : ℚ}
    {params : Params} {s s' : OptimiserState} {effs : List Effect} {v : ℚ} {tag : String}
    (h : sd_target_function N cfg FailPoint.noFail avg params s =
      Except.ok (s', effs, v, tag)) :
    s'.iteration = s.iteration + 1 ∧
    (tag = "warmup" ↔ s.iteration + 1 ≤ cfg.init_points) ∧
    (tag = "optimisation" ↔ ¬ (s.iteration + 1 ≤ cfg.init_points)) := by
  rcases sd_ok_spec h with ⟨wA, bA, bB, wB, -, -, htag, hit, -⟩
  subst htag
  have hne : ("optimisation" : String) ≠ "warmup" := by decide
  have hne' : ("warmup" : String) ≠ "optimisation" := by decide
  refine ⟨hit, ?_⟩
  unfold it_type
  by_cases hle : s.iteration + 1 ≤ cfg.init_points
  · rw [if_pos hle]
    exact ⟨⟨fun _ => hle, fun _ => rfl⟩,
      ⟨fun hc => absurd hc hne', fun hc => absurd hle hc⟩⟩
  · rw [if_neg hle]
    exact ⟨⟨fun hc => absurd hc hne, fun hc => absurd hc hle⟩,
      ⟨fun _ => hle, fun _ => rfl⟩⟩

/-- C6 witness: the first evaluation of a run with warmup budget 2 is tagged
`"warmup"` and carries iteration counter 1. -/
theorem iteration_phase_classification_witness :
    ({ iteration := 1, best_rolling_score := 1, _clean := false } :
        OptimiserState).iteration = post_init.iteration + 1 ∧
    (("warmup" : String) = "warmup" ↔ post_init.iteration + 1 ≤ cfgA.init_points) ∧
    (("warmup" : String) = "optimisation" ↔
      ¬ (post_init.iteration + 1 ≤ cfgA.init_points)) :=
  @iteration_phase_classification 1 cfgA 1 pA post_init
    { iteration := 1, best_rolling_score := 1, _clean := false }
    (eval_effects 1 cfgA FailPoint.noFail 1 pA post_init) 1 "warmup" (by decide)

/-- C8: finalisation is idempotent and pure: `plot_and_save` leaves the
optimiser state unchanged, a second call with the same best state produces the
identical output (in particular the identical `best.log` content and the
identical final-merge weight values), no score is recomputed (no scoring or
generation effect occurs), and the final merge is invoked — with exactly the
recorded best weights and `best=True` — precisely when `cfg.save_best`. -/
theorem plot_and_save_idempotent (cfg : Config) (scores : List ℚ) (a : ℚ)
    (wa : List ℚ) (b : ℚ) (wb : List ℚ) (m : Bool) (s : OptimiserState) :
    (plot_and_save cfg scores a wa b wb m s).1 = s ∧
    plot_and_save cfg scores a wa b wb m ((plot_and_save cfg scores a wa b wb m s).1) =
      plot_and_save cfg scores a wa b wb m s ∧
    (∀ i, Effect.batchScore i ∉ (plot_and_save cfg scores a wa b wb m s).2) ∧
    Effect.batchGenerate ∉ (plot_and_save cfg scores a wa b wb m s).2 ∧
    ((Effect.merge wa (some wb) a (some b) true ∈
        (plot_and_save cfg scores a wa b wb m s).2) ↔ cfg.save_best = true) := by
  refine ⟨rfl, rfl, ?_, ?_, ?_⟩
  · intro i hi
    by_cases hb : has_beta cfg = true <;> by_cases hs : cfg.save_best = true <;>
      simp [plot_and_save, hb, hs] at hi
  · intro hi
    by_cases hb : has_beta cfg = true <;> by_cases hs : cfg.save_best = true <;>
      simp [plot_and_save, hb, hs] at hi
  · by_cases hb : has_beta cfg = true <;> by_cases hs : cfg.save_best = true <;>
      simp [plot_and_save, hb, hs]

/-- C9: evaluation is not atomic on failure: whenever a call raises (missing
key, merge, generation or scoring failure), the iteration counter has already
been incremented and is not rolled back, so a following successful evaluation
carries an index two greater than the pre-failure one, skipping the failed
index. -/
theorem failed_eval_keeps_increment {N : Nat} {cfg : Config} {fail : FailPoint}
    {avg : ℚ} {params : Params} {s s' : OptimiserState} {msg : String}
    (h : sd_target_function N cfg fail avg params s = Except.error (s', msg)) :
    s'.iteration = s.iteration + 1 ∧
    (∀ (fail2 : FailPoint) (avg2 : ℚ) (params2 : Params) (s'' : OptimiserState)
        (effs : List Effect) (v : ℚ) (tag : String),
      sd_target_function N cfg fail2 avg2 params2 s' = Except.ok (s'', effs, v, tag) →
      s''.iteration = s.iteration + 2) := by
  have h1 := sd_error_spec h
  refine ⟨h1.1, ?_⟩
  intro fail2 avg2 params2 s'' effs v tag h2
  rcases sd_ok_spec h2 with ⟨-, -, -, -, -, -, -, hit, -⟩
  rw [hit, h1.1]

/-- C9 witness: a merge failure on the first call leaves the counter at 1, and
the next successful call carries counter 2. -/
theorem failed_eval_keeps_increment_witness :
    ({ iteration := 1, best_rolling_score := 0, _clean := true } :
        OptimiserState).iteration = post_init.iteration + 1 ∧
    ({ iteration := 2, best_rolling_score := 1, _clean := false } :
        OptimiserState).iteration = post_init.iteration + 2 :=
  ⟨(@failed_eval_keeps_increment 1 cfgA FailPoint.mergeFail 1 pA post_init
      { iteration := 1, best_rolling_score := 0, _clean := true } "merge raised"
      (by decide)).1,
    (@failed_eval_keeps_increment 1 cfgA FailPoint.mergeFail 1 pA post_init
      { iteration := 1, best_rolling_score := 0, _clean := true } "merge raised"
      (by decide)).2 FailPoint.noFail 1 pA
      { iteration := 2, best_rolling_score := 1, _clean := false }
      (eval_effects 1 cfgA FailPoint.noFail 1 pA
        { iteration := 1, best_rolling_score := 0, _clean := true }) 1 "warmup"
      (by decide)⟩

/-- C10: the best score starts at `0.0` and only a strictly greater aggregate
score replaces it, so it stays nonnegative over any run from the initial
state; and an evaluation whose aggregate score is zero or negative triggers no
best-update side effect (no `best.log` write, no checkpoint retention, best
score unchanged) — including on the very first evaluation. -/
theorem best_score_nonneg_invariant (N : Nat) (cfg : Config) :
    post_init.best_rolling_score = 0 ∧
    (∀ inputs : List EvalInput,
      0 ≤ (run_evals N cfg inputs post_init).best_rolling_score) ∧
    (∀ (avg : ℚ) (params : Params) (s s' : OptimiserState) (effs : List Effect)
        (v : ℚ) (tag : String), avg ≤ 0 → 0 ≤ s.best_rolling_score →
      sd_target_function N cfg FailPoint.noFail avg params s =
        Except.ok (s', effs, v, tag) →
      s'.best_rolling_score = s.best_rolling_score ∧
        (∀ c, Effect.saveBestLog c ∉ effs) ∧ Effect.keepBestCkpt ∉ effs) := by
  refine ⟨rfl, fun inputs => ?_, fun avg params s s' effs v tag havg hnn h => ?_⟩
  · exact run_evals_best_mono N cfg inputs post_init
  · have hng : ¬ avg > s.best_rolling_score := not_lt.mpr (le_trans havg hnn)
    rcases sd_ok_spec h with ⟨wA, bA, bB, wB, -, -, -, -, hdisj⟩
    rcases hdisj with ⟨hgt, -, -, -⟩ | ⟨-, hbest, -, heffs⟩
    · exact absurd hgt hng
    · refine ⟨hbest, ?_, ?_⟩
      · intro c hc
        rw [heffs] at hc
        by_cases hscl : s._clean = true <;> simp [hscl] at hc
      · intro hc
        rw [heffs] at hc
        by_cases hscl : s._clean = true <;> simp [hscl] at hc

/-- C10 witness: one evaluation with aggregate score 0 (equal to the initial
best) keeps the best score at 0, writes no best log and retains no
checkpoint; and the best score after that run is still nonnegative. -/
theorem best_score_nonneg_invariant_witness :
    (0 ≤ (run_evals 1 cfgA
      [{ fail := FailPoint.noFail, avg_score := 0, params := pA }]
      post_init).best_rolling_score) ∧
    (({ iteration := 1, best_rolling_score := 0, _clean := true } :
        OptimiserState).best_rolling_score = post_init.best_rolling_score ∧
      (∀ c, Effect.saveBestLog c ∉
        eval_effects 1 cfgA FailPoint.noFail 0 pA post_init) ∧
      Effect.keepBestCkpt ∉ eval_effects 1 cfgA FailPoint.noFail 0 pA post_init) :=
  ⟨(best_score_nonneg_invariant 1 cfgA).2.1
      [{ fail := FailPoint.noFail, avg_score := 0, params := pA }],
    (best_score_nonneg_invariant 1 cfgA).2.2 0 pA post_init
      { iteration := 1, best_rolling_score := 0, _clean := true }
      (eval_effects 1 cfgA FailPoint.noFail 0 pA post_init) 0 "warmup"
      (by decide) (by decide) (by decide)⟩

/-! ### Lemmas about `load_log` -/

theorem is_ok_true_iff {ε α : Type} (r : Except ε α) :
    is_ok r = true ↔ ∃ v, r = Except.ok v := by
  cases r <;> simp [is_ok]

theorem is_ok_false_iff {ε α : Type} (r : Except ε α) :
    is_ok r = false ↔ ∃ e, r = Except.error e := by
  cases r <;> simp [is_ok]

theorem load_log_ok_of_all {J : Type} (json_loads : String → Except String J) :
    ∀ lines : List String, (∀ l ∈ lines, is_ok (json_loads l) = true) →
      ∃ vs, load_log json_loads lines = Except.ok vs ∧
        List.Forall₂ (fun l v => json_loads l = Except.ok v) lines vs := by
  intro lines
  induction lines with
  | nil => intro _; exact ⟨[], rfl, List.Forall₂.nil⟩
  | cons l ls ih =>
    intro hall
    rcases (is_ok_true_iff _).mp (hall l (List.mem_cons_self l ls)) with ⟨v, hv⟩
    rcases ih (fun x hx => hall x (List.mem_cons_of_mem l hx)) with ⟨vs, hvs, hfa⟩
    refine ⟨v :: vs, ?_, List.Forall₂.cons hv hfa⟩
    unfold load_log
    rw [hv, hvs]

theorem load_log_error_of_bad_last {J : Type} (json_loads : String → Except String J) :
    ∀ (pre : List String) (bad : String),
      (∀ l ∈ pre, is_ok (json_loads l) = true) → is_ok (json_loads bad) = false →
      ∃ e, load_log json_loads (pre ++ [bad]) = Except.error e := by
  intro pre
  induction pre with
  | nil =>
    intro bad _ hbad
    rcases (is_ok_false_iff _).mp hbad with ⟨e, he⟩
    refine ⟨e, ?_⟩
    show load_log json_loads [bad] = Except.error e
    unfold load_log
    rw [he]
  | cons l ls ih =>
    intro bad hall hbad
    rcases (is_ok_true_iff _).mp (hall l (List.mem_cons_self l ls)) with ⟨v, hv⟩
    rcases ih bad (fun x hx => hall x (List.mem_cons_of_mem l hx)) hbad with ⟨e, he⟩
    refine ⟨e, ?_⟩
    show load_log json_loads (l :: (ls ++ [bad])) = Except.error e
    unfold load_log
    rw [hv, he]

/-- C4 (amended): `load_log` reads the file line by line, parses each line
independently with `json.loads`, and stops silently at end of input; for a
file whose lines all parse it returns one parsed record per line in file
order.  However, a line that fails to parse — including a malformed trailing
partial line at end of file — raises the parse error rather than being
tolerated: only the `StopIteration` of the line iterator is caught, not the
JSON decode error. -/
theorem load_log_line_by_line {J : Type} (json_loads : String → Except String J)
    (lines : List String) :
    ((∀ l ∈ lines, is_ok (json_loads l) = true) →
      ∃ vs, load_log json_loads lines = Except.ok vs ∧
        List.Forall₂ (fun l v => json_loads l = Except.ok v) lines vs) ∧
    (∀ (pre : List String) (bad : String), lines = pre ++ [bad] →
      (∀ l ∈ pre, is_ok (json_loads l) = true) → is_ok (json_loads bad) = false →
      ∃ e, load_log json_loads lines = Except.error e) := by
  refine ⟨fun hall => load_log_ok_of_all json_loads lines hall, ?_⟩
  intro pre bad hsplit hall hbad
  rw [hsplit]
  exact load_log_error_of_bad_last json_loads pre bad hall hbad

/-- C4 counterexample: a run log whose first line is a complete JSON object
but whose trailing line is a truncated partial object makes `load_log` raise
the decode error — the malformed trailing partial line is *not* tolerated. -/
theorem load_log_partial_line_counterexample :
    load_log json_loads_model ["\x7b\x7d", "\x7ba"] =
      Except.error "JSONDecodeError" := by decide

/-- C4 witness: on a fully well-formed log `load_log` returns one record per
line in order, and on a log with a bad trailing line it raises. -/
theorem load_log_line_by_line_witness :
    (∃ vs, load_log json_loads_model ["\x7b\x7d"] = Except.ok vs ∧
      List.Forall₂ (fun l v => json_loads_model l = Except.ok v) ["\x7b\x7d"] vs) ∧
    (∃ e, load_log json_loads_model ["\x7b\x7d", "\x7ba"] = Except.error e) :=
  ⟨(load_log_line_by_line json_loads_model ["\x7b\x7d"]).1 (by decide),
    (load_log_line_by_line json_loads_model ["\x7b\x7d", "\x7ba"]).2
      ["\x7b\x7d"] "\x7ba" rfl (by decide) (by decide)⟩

/-- C7: weight-vector schema.  In a two-axis merge mode, a `params` mapping
missing `base_beta` or any `block_i_beta` key makes the evaluation raise (a
`KeyError` configuration error); in a single-axis mode an input supplying the
alpha schema is accepted and produces the aggregate score as its one fitness
scalar, and beta fields are ignored: two inputs agreeing on the alpha keys
produce identical results whatever beta keys they carry. -/
theorem weight_vector_schema (N : Nat) (cfg : Config) (fail : FailPoint) (avg : ℚ)
    (params : Params) (s : OptimiserState) :
    (has_beta cfg = true →
      (List.lookup "base_beta" params = none ∨
        ∃ i, i < N ∧ List.lookup ("block_" ++ toString i ++ "_beta") params = none) →
      ∃ s' msg, sd_target_function N cfg fail avg params s = Except.error (s', msg)) ∧
    (has_beta cfg = false →
      (∃ a, List.lookup "base_alpha" params = some a) →
      (∀ i, i < N → ∃ v, List.lookup ("block_" ++ toString i) params = some v) →
      ∃ s' effs tag, sd_target_function N cfg FailPoint.noFail avg params s =
        Except.ok (s', effs, avg, tag)) ∧
    (has_beta cfg = false → ∀ params2 : Params,
      List.lookup "base_alpha" params = List.lookup "base_alpha" params2 →
      (∀ i, i < N → List.lookup ("block_" ++ toString i) params =
        List.lookup ("block_" ++ toString i) params2) →
      sd_target_function N cfg fail avg params s =
        sd_target_function N cfg fail avg params2 s) := by
  refine ⟨fun hb hm => ?_, fun hb ha hbl => ?_, fun hb params2 ha hbl => ?_⟩
  · rcases readWeights_error_of_missing_beta hb hm with ⟨e, hre⟩
    exact ⟨_, _, sd_eval_readWeights_error hre⟩
  · rcases readWeights_ok_single_axis hb ha hbl with ⟨wA, bA, hre⟩
    rw [sd_eval_noFail hre]
    by_cases hgt : avg > s.best_rolling_score
    · rw [if_pos hgt]; exact ⟨_, _, _, rfl⟩
    · rw [if_neg hgt]; exact ⟨_, _, _, rfl⟩
  · exact sd_congr_params (readWeights_single_axis_congr hb ha hbl)

/-- C7 witness: the alpha-only input is rejected in the two-axis mode, is
accepted in the single-axis mode with the aggregate score as fitness, and in
the single-axis mode adding beta keys changes nothing. -/
theorem weight_vector_schema_witness :
    (∃ s' msg, sd_target_function 1 cfgB FailPoint.noFail 1 pA post_init =
      Except.error (s', msg)) ∧
    (∃ s' effs tag, sd_target_function 1 cfgA FailPoint.noFail 1 pA post_init =
      Except.ok (s', effs, 1, tag)) ∧
    sd_target_function 1 cfgA FailPoint.noFail 1 pA post_init =
      sd_target_function 1 cfgA FailPoint.noFail 1 pB post_init :=
  ⟨(weight_vector_schema 1 cfgB FailPoint.noFail 1 pA post_init).1 (by decide)
      (Or.inl (by decide)),
    (weight_vector_schema 1 cfgA FailPoint.noFail 1 pA post_init).2.1 (by decide)
      ⟨3, by decide⟩ (fun i hi => by interval_cases i; exact ⟨2, by decide⟩),
    (weight_vector_schema 1 cfgA FailPoint.noFail 1 pA post_init).2.2 (by decide)
      pB (by decide) (fun i hi => by interval_cases i; decide)⟩

/-- C5 (amended): every `best.log` write replaces the whole file (mode `"w"`;
the effect carries the entire new content) with the base-alpha scalar, a blank
line, and the comma-joined per-block alpha weights; the base-beta scalar and
comma-joined beta weights follow if and only if the beta value is truthy,
i.e. the merge mode uses a second weight axis *and* the recorded base beta is
nonzero — a two-axis run whose base beta is `0.0` omits the beta section. -/
theorem best_log_format {N : Nat} {cfg : Config} {avg : ℚ} {params : Params}
    {s s' : OptimiserState} {effs : List Effect} {v : ℚ} {tag : String}
    {wA : List ℚ} {bA : ℚ} {bB : Option ℚ} {wB : Option (List ℚ)} {c : String}
    (h : sd_target_function N cfg FailPoint.noFail avg params s =
      Except.ok (s', effs, v, tag))
    (hr : readWeights N cfg params = Except.ok (wA, bA, bB, wB))
    (hc : Effect.saveBestLog c ∈ effs) :
    bB.isSome = has_beta cfg ∧
    (has_beta cfg = false → c = toString bA ++ "\n\n" ++ weights_str wA) ∧
    (∀ b : ℚ, bB = some b → b ≠ 0 →
      c = toString bA ++ "\n\n" ++ weights_str wA ++
        ("\n" ++ toString b ++ "\n\n" ++ opt_weights_str wB)) ∧
    (∀ b : ℚ, bB = some b → b = 0 →
      c = toString bA ++ "\n\n" ++ weights_str wA) := by
  rcases sd_ok_spec h with ⟨wA', bA', bB', wB', hre, -, -, -, hdisj⟩
  rw [hr] at hre
  simp only [Except.ok.injEq, Prod.mk.injEq] at hre
  rcases hre with ⟨h1, h2, h3, h4⟩
  subst h1; subst h2; subst h3; subst h4
  rcases hdisj with ⟨-, -, -, heffs⟩ | ⟨-, -, -, heffs⟩
  · rw [heffs] at hc
    have hceq : c = save_best_log bA (weights_str wA) bB (opt_weights_str wB) := by
      by_cases hscl : s._clean = true <;> simp [hscl] at hc <;> exact hc
    subst hceq
    refine ⟨(readWeights_ok_beta_flag hr).1, ?_, ?_, ?_⟩
    · intro hb
      have hnone : bB = none := by
        have hflag := (readWeights_ok_beta_flag hr).1
        rw [hb] at hflag
        cases bB with
        | none => rfl
        | some b => simp at hflag
      rw [hnone]
      simp [save_best_log, String.append_empty]
    · intro b hbB hbne
      rw [hbB]
      simp only [save_best_log]
      rw [if_neg hbne]
    · intro b hbB hb0
      rw [hbB]
      simp [save_best_log, hb0, String.append_empty]
  · rw [heffs] at hc
    by_cases hscl : s._clean = true <;> simp [hscl] at hc

/-- C5 counterexample: in the two-axis mode `sum_twice` with recorded base
beta `0.0` (a value the configured mode fully supports), the `best.log`
content written by the evaluation is `"3\n\n2"` — no beta section follows,
refuting "the beta scalar and weights follow if and only if the configured
merge mode uses a second weight axis". -/
theorem best_log_beta_counterexample :
    has_beta cfgB = true ∧
    List.lookup "base_beta" pB0 = some 0 ∧
    saved_best_logs (eval_effects 1 cfgB FailPoint.noFail 1 pB0 post_init) =
      ["3\n\n2"] := by decide

/-- C5 witness: a two-axis run with nonzero base beta writes the full format
with the beta section. -/
theorem best_log_format_witness :
    (some (5 : ℚ)).isSome = has_beta cfgB ∧
    ("3\n\n2\n5\n\n7" : String) =
      toString (3 : ℚ) ++ "\n\n" ++ weights_str [2] ++
        ("\n" ++ toString (5 : ℚ) ++ "\n\n" ++ opt_weights_str (some [7])) :=
  ⟨(@best_log_format 1 cfgB 1 pB post_init
      { iteration := 1, best_rolling_score := 1, _clean := false }
      (eval_effects 1 cfgB FailPoint.noFail 1 pB post_init) 1 "warmup"
      [2] 3 (some 5) (some [7]) "3\n\n2\n5\n\n7"
      (by decide) (by decide) (by decide)).1,
    (@best_log_format 1 cfgB 1 pB post_init
      { iteration := 1, best_rolling_score := 1, _clean := false }
      (eval_effects 1 cfgB FailPoint.noFail 1 pB post_init) 1 "warmup"
      [2] 3 (some 5) (some [7]) "3\n\n2\n5\n\n7"
      (by decide) (by decide) (by decide)).2.2.1 5 rfl (by decide)⟩
